/-
Verification of the folder-signing utilities in nvflare/lighter/utils.py.

Modelling conventions (shallow embedding):
* Python `bytes` values are lists of byte values (`List Nat`), Python `str`
  values are lists of Unicode codepoints (`List Nat`); `str.encode("utf-8")`
  is the concrete `utf8Encode` below.
* The external `cryptography` library (RSA sign/verify) and the `base64`
  module are abstracted by the `CryptoLib` structure; their documented
  contracts (`SignatureCorrect`, `Base64RoundTrip`) appear as hypotheses of
  the theorems that need them.  The final `Nat` argument of `rsaSign` models
  the random salt drawn by the probabilistic PSS padding on each invocation.
* `os.walk(folder)` is abstracted by its output: the top-down list of
  `(root, dirs, files)` triples (`WalkEntry`), each file paired with the
  bytes `open(path, "rb").read()` returns for it.  `os.listdir` together
  with the `os.path.isfile` filter is abstracted by a list of `DirEntry`.
* `json.load` on a manifest file and `load_crt` (PEM certificate parsing)
  are abstracted by parse functions `Bytes → Option ...`; `none` models the
  exception raised on absent-on-open/unparsable data.
* `NVFLARE_SIG_FILE` and `NVFLARE_SUBMITTER_CRT_FILE` are imported from
  nvflare.lighter.tool_consts, which is not among the sources here.
  Modelled from the spec: they are two fixed reserved file names, passed to
  every definition as the parameters `sf` (manifest file name) and `cf`
  (embedded submitter certificate file name).
-/
import Mathlib

/-- Python bytes: a list of byte values. -/
abbrev Bytes := List Nat

/-- Python str: a list of Unicode codepoints. -/
abbrev PyStr := List Nat

/-- UTF-8 encoding of one codepoint. -/
def utf8EncodeChar (c : Nat) : List Nat :=
  if c < 128 then [c]
  else if c < 2048 then [192 + c / 64, 128 + c % 64]
  else if c < 65536 then [224 + c / 4096, 128 + (c / 64) % 64, 128 + c % 64]
  else [240 + c / 262144, 128 + (c / 4096) % 64, 128 + (c / 64) % 64, 128 + c % 64]

/-- Python str.encode("utf-8"). -/
def utf8Encode (s : PyStr) : Bytes :=
  (s.map utf8EncodeChar).flatten

/-- Hash algorithms as selected in utils.py (hashes.SHA256() and whatever a
certificate declares as its signature_hash_algorithm). -/
inductive HashAlgo where
  | sha256 : HashAlgo
  | other : Nat → HashAlgo
deriving DecidableEq

/-- The padding schemes used in utils.py: padding.PSS(mgf=MGF1(h), salt_length)
(the Bool records salt_length = PSS.MAX_LENGTH) and padding.PKCS1v15(). -/
inductive PaddingScheme where
  | pss : HashAlgo → Bool → PaddingScheme
  | pkcs1v15 : PaddingScheme
deriving DecidableEq

/-- Source _content_padding(): PSS(mgf=MGF1(SHA256()), salt_length=PSS.MAX_LENGTH). -/
def content_padding : PaddingScheme :=
  PaddingScheme.pss HashAlgo.sha256 true

/-- Source _content_hash_algo(): hashes.SHA256(). -/
def content_hash_algo : HashAlgo :=
  HashAlgo.sha256

/-- Abstraction of the external cryptography/base64 libraries used by utils.py.
rsaSign models private_key.sign(data, padding, algorithm) with its final Nat
argument standing for the random salt of a probabilistic padding; rsaVerify
models public_key.verify (true: returns, false: raises InvalidSignature);
b64encodeStr models b64encode(sig).decode("utf-8") and b64decodeStr models
b64decode(s.encode("utf-8")). -/
structure CryptoLib where
  PriKey : Type
  PubKey : Type
  rsaSign : PriKey → Bytes → PaddingScheme → HashAlgo → Nat → Bytes
  rsaVerify : PubKey → Bytes → Bytes → PaddingScheme → HashAlgo → Bool
  b64encodeStr : Bytes → PyStr
  b64decodeStr : PyStr → Bytes

/-- Library contract: a signature produced with a private key verifies under
the matching public key, for the same data, padding and hash, whatever salt
was drawn. -/
def SignatureCorrect (L : CryptoLib) (keypair : L.PriKey → L.PubKey → Prop) : Prop :=
  ∀ pri pub data pad algo r, keypair pri pub →
    L.rsaVerify pub (L.rsaSign pri data pad algo r) data pad algo = true

/-- Library contract: base64-decoding a base64-encoded byte string restores it. -/
def Base64RoundTrip (L : CryptoLib) : Prop :=
  ∀ b, L.b64decodeStr (L.b64encodeStr b) = b

/-- The content argument of sign_content/verify_content: Python bytes or str
(the source branches on isinstance(content, str)). -/
inductive ContentVal where
  | bytes : Bytes → ContentVal
  | str : PyStr → ContentVal
deriving DecidableEq

/-- A signature value: raw bytes or base64 text (the source branches on
isinstance(signature, str)). -/
inductive SigVal where
  | bytes : Bytes → SigVal
  | str : PyStr → SigVal
deriving DecidableEq

/-- The byte string actually signed: str content is UTF-8 encoded first. -/
def contentToBytes : ContentVal → Bytes
  | ContentVal.bytes b => b
  | ContentVal.str s => utf8Encode s

/-- The raw signature bytes computed inside sign_content (before the
return_str branch): signing_pri_key.sign(data, _content_padding(),
_content_hash_algo()). -/
def sign_content_core (L : CryptoLib) (content : ContentVal) (pri : L.PriKey) (r : Nat) : Bytes :=
  L.rsaSign pri (contentToBytes content) content_padding content_hash_algo r

/-- Source sign_content(content, signing_pri_key, return_str): base64 text when
return_str, raw bytes otherwise. -/
def sign_content (L : CryptoLib) (content : ContentVal) (pri : L.PriKey)
    (return_str : Bool) (r : Nat) : SigVal :=
  if return_str then SigVal.str (L.b64encodeStr (sign_content_core L content pri r))
  else SigVal.bytes (sign_content_core L content pri r)

/-- The signature bytes verify_content passes to public_key.verify: a str
signature is base64-decoded first. -/
def sigToBytes (L : CryptoLib) : SigVal → Bytes
  | SigVal.bytes b => b
  | SigVal.str s => L.b64decodeStr s

/-- Source verify_content(content, signature, public_key): true models a
normal return, false models the InvalidSignature exception. -/
def verify_content (L : CryptoLib) (content : ContentVal) (signature : SigVal)
    (pub : L.PubKey) : Bool :=
  L.rsaVerify pub (sigToBytes L signature) (contentToBytes content)
    content_padding content_hash_algo

/-- The fields of an X.509 certificate object that utils.py touches, plus the
validity dates (present on every such object but never read by this code). -/
structure Cert (PubKey : Type) where
  signature : Bytes
  tbs_certificate_bytes : Bytes
  signature_hash_algorithm : HashAlgo
  public_key : PubKey
  not_valid_before : Int
  not_valid_after : Int
deriving DecidableEq

/-- Source verify_cert(cert_to_be_verified, root_ca_public_key). -/
def verify_cert (L : CryptoLib) (c : Cert L.PubKey) (root_ca_public_key : L.PubKey) : Bool :=
  L.rsaVerify root_ca_public_key c.signature c.tbs_certificate_bytes
    PaddingScheme.pkcs1v15 c.signature_hash_algorithm

/-- Modelled from the spec: section 4.2 verifyIssuedBy(certificate,
issuerPublicKey) validates certificate.signature over
certificate.toBeSignedBytes using the issuer public key, the PKCS#1 v1.5
padding scheme and the hash algorithm declared inside the certificate. -/
def verifyIssuedBy (L : CryptoLib) (c : Cert L.PubKey) (issuerPub : L.PubKey) : Bool :=
  L.rsaVerify issuerPub c.signature c.tbs_certificate_bytes
    PaddingScheme.pkcs1v15 c.signature_hash_algorithm

/-- A Python dict represented as its insertion-ordered association list. -/
abbrev Manifest := List (PyStr × PyStr)

/-- Python dict membership test and d.get(k) / d[k] read: first (unique)
binding of the key. -/
def dictGet {β : Type} (m : List (PyStr × β)) (k : PyStr) : Option β :=
  match m with
  | [] => none
  | (a, b) :: rest => if a = k then some b else dictGet rest k

/-- Python dict write d[k] = v: update the existing binding in place, or
append a fresh one. -/
def dictInsert {β : Type} (m : List (PyStr × β)) (k : PyStr) (v : β) : List (PyStr × β) :=
  match m with
  | [] => [(k, v)]
  | (a, b) :: rest => if a = k then (k, v) :: rest else (a, b) :: dictInsert rest k v

/-- One element of the os.walk(folder) output: the path of the directory (relative
to the walk root, as the list of path components), its immediate regular
files (with the bytes a read of each returns) and its immediate subfolder
names. -/
structure WalkEntry where
  path : List PyStr
  files : List (PyStr × Bytes)
  dirs : List PyStr
deriving DecidableEq

/-- What sign_folders writes into one visited directory: the signature
manifest (json.dump into the reserved manifest file) and the copy of the
submitter certificate file bytes (shutil.copyfile). -/
structure SignedDir where
  path : List PyStr
  manifest : Manifest
  cert_file : Bytes
deriving DecidableEq

/-- The base64 text produced by sign_content with its default return_str=True,
as stored into manifests. -/
def sign_content_s (L : CryptoLib) (content : ContentVal) (pri : L.PriKey) (r : Nat) : PyStr :=
  L.b64encodeStr (sign_content_core L content pri r)

/-- The files loop of sign_folders: skip the two reserved names, otherwise
record sign_content(file bytes) under the file name.  The accumulator pairs
the manifest built so far with the index of the next random salt draw. -/
def signFilesFold (L : CryptoLib) (pri : L.PriKey) (sf cf : PyStr) :
    List (PyStr × Bytes) → Manifest × Nat → Manifest × Nat
  | [], acc => acc
  | (name, content) :: rest, (m, k) =>
    if name = sf ∨ name = cf then signFilesFold L pri sf cf rest (m, k)
    else signFilesFold L pri sf cf rest
      (dictInsert m name (sign_content_s L (ContentVal.bytes content) pri k), k + 1)

/-- The folders loop of sign_folders: record sign_content(subfolder name str)
under the subfolder name, with no reserved-name check. -/
def signDirsFold (L : CryptoLib) (pri : L.PriKey) :
    List PyStr → Manifest × Nat → Manifest × Nat
  | [], acc => acc
  | d :: rest, (m, k) =>
    signDirsFold L pri rest (dictInsert m d (sign_content_s L (ContentVal.str d) pri k), k + 1)

/-- The manifest sign_folders builds for one visited directory: files loop
(starting from the empty dict) then folders loop. -/
def signEntryManifest (L : CryptoLib) (pri : L.PriKey) (sf cf : PyStr)
    (e : WalkEntry) (k : Nat) : Manifest × Nat :=
  signDirsFold L pri e.dirs (signFilesFold L pri sf cf e.files ([], k))

/-- The for root, folders, files in os.walk(folder) loop of sign_folders:
depth is incremented once per visited directory, the manifest and the
certificate copy are written, and once depth >= max_depth the break leaves
the whole loop. -/
def signLoop (L : CryptoLib) (pri : L.PriKey) (sf cf : PyStr) (crt : Bytes) (mx : Int) :
    List WalkEntry → Int → Nat → List SignedDir
  | [], _, _ => []
  | e :: rest, depth, k =>
    SignedDir.mk e.path (signEntryManifest L pri sf cf e k).1 crt ::
      (if mx ≤ depth + 1 then []
       else signLoop L pri sf cf crt mx rest (depth + 1) (signEntryManifest L pri sf cf e k).2)

/-- Source sign_folders(folder, signing_pri_key, crt_path, max_depth): w is
the os.walk output for folder, crt the bytes of the file at crt_path; the
result lists, per visited directory, the two files written there. -/
def sign_folders (L : CryptoLib) (sf cf : PyStr) (w : List WalkEntry)
    (pri : L.PriKey) (crt : Bytes) (mx : Int) : List SignedDir :=
  signLoop L pri sf cf crt mx w 0 0

/-- The per-file body of the verification files loop: reserved names are
skipped, a file with no (or a falsy, i.e. empty) recorded signature is
accepted, otherwise verify_content decides. -/
def checkFile (L : CryptoLib) (m : Manifest) (pub : L.PubKey) (sf cf : PyStr)
    (name : PyStr) (content : Bytes) : Bool :=
  if name = sf ∨ name = cf then true
  else
    match dictGet m name with
    | none => true
    | some s => if s = [] then true else verify_content L (ContentVal.bytes content) (SigVal.str s) pub

/-- The per-subfolder body of the verification folders loop: no reserved-name
check; a subfolder with no (or a falsy) recorded signature is accepted,
otherwise verify_content over the name of the subfolder decides. -/
def checkSubfolder (L : CryptoLib) (m : Manifest) (pub : L.PubKey) (d : PyStr) : Bool :=
  match dictGet m d with
  | none => true
  | some s => if s = [] then true else verify_content L (ContentVal.str d) (SigVal.str s) pub

/-- The two entry loops of verify_folder_signature for one directory; any
verify_content failure escalates (the exception reaches the outer handler). -/
def checkEntries (L : CryptoLib) (m : Manifest) (pub : L.PubKey) (sf cf : PyStr)
    (files : List (PyStr × Bytes)) (dirs : List PyStr) : Bool :=
  files.all (fun f => checkFile L m pub sf cf f.1 f.2) &&
    dirs.all (fun d => checkSubfolder L m pub d)

/-- One iteration of the verification walk.  pm models json.load of the
manifest file, pc models load_crt of the certificate file; an absent file
(dictGet none) or a failed parse (pm/pc none) hits the inner except and the
directory is skipped (true).  Otherwise verify_cert against the root public
key and then every entry must pass. -/
def checkDir (L : CryptoLib) (pm : Bytes → Option Manifest)
    (pc : Bytes → Option (Cert L.PubKey)) (sf cf : PyStr)
    (rootPub : L.PubKey) (e : WalkEntry) : Bool :=
  match dictGet e.files sf with
  | none => true
  | some sigBytes =>
    match pm sigBytes with
    | none => true
    | some m =>
      match dictGet e.files cf with
      | none => true
      | some certBytes =>
        match pc certBytes with
        | none => true
        | some cert =>
          verify_cert L cert rootPub &&
            checkEntries L m cert.public_key sf cf e.files e.dirs

/-- Source verify_folder_signature(src_folder, root_ca_path): rootCaBytes is
the content of the file at root_ca_path; load it, then walk every directory.
Any escalated failure makes the whole result False via the outer except. -/
def verify_folder_signature (L : CryptoLib) (pm : Bytes → Option Manifest)
    (pc : Bytes → Option (Cert L.PubKey)) (sf cf : PyStr)
    (w : List WalkEntry) (rootCaBytes : Bytes) : Bool :=
  match pc rootCaBytes with
  | none => false
  | some rootCert => w.all (checkDir L pm pc sf cf rootCert.public_key)

/-- One element of the os.listdir(content_folder) output as sign_all sees it:
os.path.isfile distinguishes regular files (with their bytes) from
everything else. -/
inductive DirEntry where
  | fileEntry : PyStr → Bytes → DirEntry
  | subdirEntry : PyStr → DirEntry
deriving DecidableEq

/-- The loop of sign_all: every regular file is signed and recorded, every
non-file entry is ignored; no reserved-name filtering happens here. -/
def signAllFold (L : CryptoLib) (pri : L.PriKey) :
    List DirEntry → Manifest × Nat → Manifest × Nat
  | [], acc => acc
  | DirEntry.fileEntry name content :: rest, (m, k) =>
    signAllFold L pri rest
      (dictInsert m name (sign_content_s L (ContentVal.bytes content) pri k), k + 1)
  | DirEntry.subdirEntry _ :: rest, acc => signAllFold L pri rest acc

/-- Source sign_all(content_folder, signing_pri_key): entries is the
os.listdir view of content_folder; the signature dict is returned in memory. -/
def sign_all (L : CryptoLib) (entries : List DirEntry) (pri : L.PriKey) (k : Nat) : Manifest :=
  (signAllFold L pri entries ([], k)).1

/-- The names of the regular files among the entries of a listing. -/
def dirEntryFileNames : List DirEntry → List PyStr
  | [] => []
  | DirEntry.fileEntry name _ :: rest => name :: dirEntryFileNames rest
  | DirEntry.subdirEntry _ :: rest => dirEntryFileNames rest

/-- A concrete (toy) instantiation of the library abstraction, used only to
evaluate the theorems below on closed inputs: keys are naturals, a matching
pair is an equal pair, signing prepends the key to the data, verification
recomputes that, and the base64 codec is the identity on codepoint lists. -/
abbrev toyLib : CryptoLib :=
  { PriKey := Nat
    PubKey := Nat
    rsaSign := fun pri data _ _ _ => pri :: data
    rsaVerify := fun pub sig data _ _ => decide (sig = pub :: data)
    b64encodeStr := fun b => b
    b64decodeStr := fun s => s }

/-- A certificate whose signature is not what the root key signs over its
to-be-signed bytes under toyLib. -/
def toyCertBad : Cert toyLib.PubKey :=
  Cert.mk [0] [1] HashAlgo.sha256 3 0 0

/-- A toy manifest parser: the byte string [0] is the serialized empty
manifest, everything else is unparsable. -/
def toyPm : Bytes → Option Manifest :=
  fun b => if b = [0] then some [] else none

/-- A toy certificate parser: the byte string [7] is the PEM serialization of
toyCertBad, everything else is unparsable. -/
def toyPc : Bytes → Option (Cert toyLib.PubKey) :=
  fun b => if b = [7] then some toyCertBad else none

/-- A directory whose manifest and certificate files both load, but whose
embedded certificate fails validation against the root public key. -/
def toyEntryBad : WalkEntry :=
  WalkEntry.mk [] [([1], [0]), ([2], [7])] []

/-- A directory carrying neither manifest nor certificate file. -/
def toyEntryBare : WalkEntry :=
  WalkEntry.mk [] [([5], [6])] [[4]]

theorem toy_sig_correct : SignatureCorrect toyLib Eq := by
  intro pri pub data pad algo r h
  subst h
  simp [toyLib]

theorem toy_b64 : Base64RoundTrip toyLib :=
  fun _ => rfl

theorem dictGet_dictInsert_self {β : Type} (m : List (PyStr × β)) (k : PyStr) (v : β) :
    dictGet (dictInsert m k v) k = some v := by
  induction m with
  | nil => simp [dictInsert, dictGet]
  | cons p rest ih =>
    obtain ⟨a, b⟩ := p
    by_cases h : a = k
    · subst h
      simp [dictInsert, dictGet]
    · simp [dictInsert, dictGet, h, ih]

theorem dictGet_dictInsert_ne {β : Type} (m : List (PyStr × β)) (k : PyStr) (v : β)
    (n : PyStr) (h : n ≠ k) : dictGet (dictInsert m k v) n = dictGet m n := by
  induction m with
  | nil =>
    have hkn : k ≠ n := fun he => h he.symm
    simp [dictInsert, dictGet, hkn]
  | cons p rest ih =>
    obtain ⟨a, b⟩ := p
    by_cases ha : a = k
    · subst ha
      have han : a ≠ n := fun he => h he.symm
      simp [dictInsert, dictGet, han]
    · by_cases han : a = n
      · subst han
        simp [dictInsert, dictGet, ha]
      · simp [dictInsert, dictGet, ha, han, ih]

theorem keys_dictInsert {β : Type} (m : List (PyStr × β)) (k : PyStr) (v : β)
    (n : PyStr) (h : n ∈ (dictInsert m k v).map Prod.fst) :
    n ∈ m.map Prod.fst ∨ n = k := by
  induction m with
  | nil =>
    rw [show dictInsert ([] : List (PyStr × β)) k v = [(k, v)] from rfl] at h
    simp only [List.map_cons, List.map_nil, List.mem_singleton] at h
    exact Or.inr h
  | cons p rest ih =>
    obtain ⟨a, b⟩ := p
    by_cases ha : a = k
    · subst ha
      rw [show dictInsert ((a, b) :: rest) a v = (a, v) :: rest from by simp [dictInsert]] at h
      simp only [List.map_cons, List.mem_cons] at h ⊢
      rcases h with h | h
      · exact Or.inr h
      · exact Or.inl (Or.inr h)
    · rw [show dictInsert ((a, b) :: rest) k v = (a, b) :: dictInsert rest k v from by
        simp [dictInsert, ha]] at h
      simp only [List.map_cons, List.mem_cons] at h ⊢
      rcases h with h | h
      · exact Or.inl (Or.inl h)
      · rcases ih h with h2 | h2
        · exact Or.inl (Or.inr h2)
        · exact Or.inr h2

theorem keys_dictInsert_of_not_mem {β : Type} (m : List (PyStr × β)) (k : PyStr) (v : β)
    (h : k ∉ m.map Prod.fst) :
    (dictInsert m k v).map Prod.fst = m.map Prod.fst ++ [k] := by
  induction m with
  | nil => simp [dictInsert]
  | cons p rest ih =>
    obtain ⟨a, b⟩ := p
    have ha : a ≠ k := by
      intro he
      exact h (by simp [he])
    have hrest : k ∉ rest.map Prod.fst := by
      intro hm
      exact h (by simp only [List.map_cons, List.mem_cons]; exact Or.inr hm)
    rw [show dictInsert ((a, b) :: rest) k v = (a, b) :: dictInsert rest k v from by
      simp [dictInsert, ha]]
    simp only [List.map_cons, ih hrest, List.cons_append]

theorem signFilesFold_get_of_not_mem (L : CryptoLib) (pri : L.PriKey) (sf cf : PyStr)
    (files : List (PyStr × Bytes)) (m : Manifest) (k : Nat) (n : PyStr)
    (h : n ∉ files.map Prod.fst) :
    dictGet (signFilesFold L pri sf cf files (m, k)).1 n = dictGet m n := by
  induction files generalizing m k with
  | nil => rfl
  | cons f rest ih =>
    obtain ⟨name, content⟩ := f
    have hn : n ≠ name := by
      intro he
      exact h (by simp [he])
    have hrest : n ∉ rest.map Prod.fst := by
      intro hm
      exact h (by simp only [List.map_cons, List.mem_cons]; exact Or.inr hm)
    by_cases hr : name = sf ∨ name = cf
    · rw [show signFilesFold L pri sf cf ((name, content) :: rest) (m, k)
          = signFilesFold L pri sf cf rest (m, k) from by simp [signFilesFold, hr]]
      exact ih m k hrest
    · rw [show signFilesFold L pri sf cf ((name, content) :: rest) (m, k)
          = signFilesFold L pri sf cf rest
              (dictInsert m name (sign_content_s L (ContentVal.bytes content) pri k), k + 1)
          from by simp [signFilesFold, hr]]
      rw [ih _ _ hrest]
      exact dictGet_dictInsert_ne m name _ n hn

theorem signDirsFold_get_of_not_mem (L : CryptoLib) (pri : L.PriKey)
    (dirs : List PyStr) (m : Manifest) (k : Nat) (n : PyStr) (h : n ∉ dirs) :
    dictGet (signDirsFold L pri dirs (m, k)).1 n = dictGet m n := by
  induction dirs generalizing m k with
  | nil => rfl
  | cons d rest ih =>
    have hn : n ≠ d := by
      intro he
      exact h (by simp [he])
    have hrest : n ∉ rest := by
      intro hm
      exact h (List.mem_cons_of_mem d hm)
    rw [show signDirsFold L pri (d :: rest) (m, k)
        = signDirsFold L pri rest
            (dictInsert m d (sign_content_s L (ContentVal.str d) pri k), k + 1)
        from rfl]
    rw [ih _ _ hrest]
    exact dictGet_dictInsert_ne m d _ n hn

theorem signDirsFold_get_of_mem (L : CryptoLib) (pri : L.PriKey)
    (dirs : List PyStr) (m : Manifest) (k : Nat) (d : PyStr) (h : d ∈ dirs) :
    ∃ r, dictGet (signDirsFold L pri dirs (m, k)).1 d
      = some (sign_content_s L (ContentVal.str d) pri r) := by
  induction dirs generalizing m k with
  | nil => cases h
  | cons d0 rest ih =>
    rw [show signDirsFold L pri (d0 :: rest) (m, k)
        = signDirsFold L pri rest
            (dictInsert m d0 (sign_content_s L (ContentVal.str d0) pri k), k + 1)
        from rfl]
    by_cases hd : d ∈ rest
    · exact ih _ _ hd
    · have hd0 : d = d0 := by
        rcases List.mem_cons.mp h with h1 | h1
        · exact h1
        · exact absurd h1 hd
      subst hd0
      refine ⟨k, ?_⟩
      rw [signDirsFold_get_of_not_mem L pri rest _ _ d hd]
      exact dictGet_dictInsert_self m d _

theorem signFilesFold_get_of_mem (L : CryptoLib) (pri : L.PriKey) (sf cf : PyStr)
    (files : List (PyStr × Bytes)) (m : Manifest) (k : Nat) (f : PyStr) (b : Bytes)
    (hmem : (f, b) ∈ files) (hsf : f ≠ sf) (hcf : f ≠ cf)
    (hdet : ∀ b2, (f, b2) ∈ files → b2 = b) :
    ∃ r, dictGet (signFilesFold L pri sf cf files (m, k)).1 f
      = some (sign_content_s L (ContentVal.bytes b) pri r) := by
  induction files generalizing m k with
  | nil => cases hmem
  | cons p rest ih =>
    obtain ⟨name, content⟩ := p
    have hdet2 : ∀ b2, (f, b2) ∈ rest → b2 = b :=
      fun b2 hb2 => hdet b2 (List.mem_cons_of_mem _ hb2)
    by_cases hr : name = sf ∨ name = cf
    · have hmem2 : (f, b) ∈ rest := by
        rcases List.mem_cons.mp hmem with h1 | h1
        · rcases hr with h2 | h2
          · exact absurd (h2 ▸ congrArg Prod.fst h1) hsf
          · exact absurd (h2 ▸ congrArg Prod.fst h1) hcf
        · exact h1
      rw [show signFilesFold L pri sf cf ((name, content) :: rest) (m, k)
          = signFilesFold L pri sf cf rest (m, k) from by simp [signFilesFold, hr]]
      exact ih m k hmem2 hdet2
    · rw [show signFilesFold L pri sf cf ((name, content) :: rest) (m, k)
          = signFilesFold L pri sf cf rest
              (dictInsert m name (sign_content_s L (ContentVal.bytes content) pri k), k + 1)
          from by simp [signFilesFold, hr]]
      by_cases hf : name = f
      · subst hf
        have hcb : content = b := hdet content (List.mem_cons_self _ _)
        subst hcb
        by_cases hrest : name ∈ rest.map Prod.fst
        · obtain ⟨p2, hp2, hfst⟩ := List.mem_map.mp hrest
          have hp2m : (name, p2.2) ∈ rest := by
            rw [show (name, p2.2) = p2 from by rw [← hfst]] at *
            exact hp2
          have hb2 : p2.2 = content := hdet2 p2.2 hp2m
          rw [hb2] at hp2m
          exact ih _ _ hp2m hdet2
        · refine ⟨k, ?_⟩
          rw [signFilesFold_get_of_not_mem L pri sf cf rest _ _ name hrest]
          exact dictGet_dictInsert_self m name _
      · have hmem2 : (f, b) ∈ rest := by
          rcases List.mem_cons.mp hmem with h1 | h1
          · exact absurd (congrArg Prod.fst h1).symm hf
          · exact h1
        exact ih _ _ hmem2 hdet2

theorem signFilesFold_keys (L : CryptoLib) (pri : L.PriKey) (sf cf : PyStr)
    (files : List (PyStr × Bytes)) (m : Manifest) (k : Nat) (n : PyStr)
    (h : n ∈ (signFilesFold L pri sf cf files (m, k)).1.map Prod.fst) :
    n ∈ m.map Prod.fst ∨ (n ∈ files.map Prod.fst ∧ n ≠ sf ∧ n ≠ cf) := by
  induction files generalizing m k with
  | nil => exact Or.inl h
  | cons p rest ih =>
    obtain ⟨name, content⟩ := p
    by_cases hr : name = sf ∨ name = cf
    · rw [show signFilesFold L pri sf cf ((name, content) :: rest) (m, k)
          = signFilesFold L pri sf cf rest (m, k) from by simp [signFilesFold, hr]] at h
      rcases ih _ _ h with h2 | h2
      · exact Or.inl h2
      · exact Or.inr ⟨by simp only [List.map_cons, List.mem_cons]; exact Or.inr h2.1, h2.2⟩
    · rw [show signFilesFold L pri sf cf ((name, content) :: rest) (m, k)
          = signFilesFold L pri sf cf rest
              (dictInsert m name (sign_content_s L (ContentVal.bytes content) pri k), k + 1)
          from by simp [signFilesFold, hr]] at h
      rcases ih _ _ h with h2 | h2
      · rcases keys_dictInsert m name _ n h2 with h3 | h3
        · exact Or.inl h3
        · subst h3
          push_neg at hr
          exact Or.inr ⟨by simp, hr.1, hr.2⟩
      · exact Or.inr ⟨by simp only [List.map_cons, List.mem_cons]; exact Or.inr h2.1, h2.2⟩

theorem signDirsFold_keys (L : CryptoLib) (pri : L.PriKey)
    (dirs : List PyStr) (m : Manifest) (k : Nat) (n : PyStr)
    (h : n ∈ (signDirsFold L pri dirs (m, k)).1.map Prod.fst) :
    n ∈ m.map Prod.fst ∨ n ∈ dirs := by
  induction dirs generalizing m k with
  | nil => exact Or.inl h
  | cons d rest ih =>
    rw [show signDirsFold L pri (d :: rest) (m, k)
        = signDirsFold L pri rest
            (dictInsert m d (sign_content_s L (ContentVal.str d) pri k), k + 1)
        from rfl] at h
    rcases ih _ _ h with h2 | h2
    · rcases keys_dictInsert m d _ n h2 with h3 | h3
      · exact Or.inl h3
      · exact Or.inr (by simp [h3])
    · exact Or.inr (List.mem_cons_of_mem d h2)

theorem signLoop_mem (L : CryptoLib) (pri : L.PriKey) (sf cf : PyStr) (crt : Bytes)
    (mx : Int) (w : List WalkEntry) (depth : Int) (k : Nat) (sd : SignedDir)
    (h : sd ∈ signLoop L pri sf cf crt mx w depth k) :
    ∃ e, e ∈ w ∧ ∃ k0, sd = SignedDir.mk e.path (signEntryManifest L pri sf cf e k0).1 crt := by
  induction w generalizing depth k with
  | nil => cases h
  | cons e rest ih =>
    rcases List.mem_cons.mp h with h1 | h1
    · exact ⟨e, List.mem_cons_self _ _, k, h1⟩
    · by_cases hstop : mx ≤ depth + 1
      · rw [if_pos hstop] at h1
        cases h1
      · rw [if_neg hstop] at h1
        obtain ⟨e2, he2, k0, hk0⟩ := ih _ _ h1
        exact ⟨e2, List.mem_cons_of_mem e he2, k0, hk0⟩

theorem signLoop_paths (L : CryptoLib) (pri : L.PriKey) (sf cf : PyStr) (crt : Bytes)
    (mx : Int) (w : List WalkEntry) (depth : Int) (k : Nat) :
    (signLoop L pri sf cf crt mx w depth k).map SignedDir.path
      = (w.map WalkEntry.path).take (max 1 (mx - depth).toNat) := by
  induction w generalizing depth k with
  | nil => simp [signLoop]
  | cons e rest ih =>
    by_cases hstop : mx ≤ depth + 1
    · have h1 : max 1 (mx - depth).toNat = 1 := by omega
      rw [show signLoop L pri sf cf crt mx (e :: rest) depth k
          = [SignedDir.mk e.path (signEntryManifest L pri sf cf e k).1 crt]
          from by simp [signLoop, hstop]]
      simp [h1]
    · have h1 : max 1 (mx - depth).toNat = (max 1 (mx - (depth + 1)).toNat) + 1 := by omega
      rw [show signLoop L pri sf cf crt mx (e :: rest) depth k
          = SignedDir.mk e.path (signEntryManifest L pri sf cf e k).1 crt ::
              signLoop L pri sf cf crt mx rest (depth + 1) (signEntryManifest L pri sf cf e k).2
          from by simp [signLoop, hstop]]
      simp only [List.map_cons, h1, List.take_succ_cons, ih]

theorem list_all_congr {α : Type} (l : List α) (p q : α → Bool)
    (h : ∀ x ∈ l, p x = q x) : l.all p = l.all q := by
  induction l with
  | nil => rfl
  | cons a rest ih =>
    simp only [List.all_cons]
    rw [h a (List.mem_cons_self _ _), ih (fun x hx => h x (List.mem_cons_of_mem a hx))]

/-- C1: for every content value (bytes or text, including the empty byte
string) and every matching key pair, verify_content succeeds on the output of
sign_content, both when the signature is returned as base64 text
(return_str = true) and as raw bytes (return_str = false), given the
library contracts for signature correctness and base64 round-tripping. -/
theorem verify_content_of_sign_content (L : CryptoLib)
    (keypair : L.PriKey → L.PubKey → Prop)
    (hsig : SignatureCorrect L keypair) (hb64 : Base64RoundTrip L)
    (pri : L.PriKey) (pub : L.PubKey) (hk : keypair pri pub)
    (content : ContentVal) (return_str : Bool) (r : Nat) :
    verify_content L content (sign_content L content pri return_str r) pub = true := by
  cases return_str with
  | false =>
    show L.rsaVerify pub (sign_content_core L content pri r) (contentToBytes content)
      content_padding content_hash_algo = true
    exact hsig pri pub (contentToBytes content) content_padding content_hash_algo r hk
  | true =>
    show L.rsaVerify pub (L.b64decodeStr (L.b64encodeStr (sign_content_core L content pri r)))
      (contentToBytes content) content_padding content_hash_algo = true
    rw [hb64]
    exact hsig pri pub (contentToBytes content) content_padding content_hash_algo r hk

/-- C1 witness: the toy library satisfies both contracts, and the round trip
holds at concrete inputs for a text signature over the empty byte string, a
raw-bytes signature, and a text signature over str content. -/
theorem verify_content_of_sign_content_witness :
    verify_content toyLib (ContentVal.bytes []) (sign_content toyLib (ContentVal.bytes []) 7 true 0) 7 = true ∧
    verify_content toyLib (ContentVal.bytes [1, 2]) (sign_content toyLib (ContentVal.bytes [1, 2]) 7 false 3) 7 = true ∧
    verify_content toyLib (ContentVal.str [104, 105]) (sign_content toyLib (ContentVal.str [104, 105]) 7 true 5) 7 = true :=
  ⟨verify_content_of_sign_content toyLib Eq toy_sig_correct toy_b64 7 7 rfl (ContentVal.bytes []) true 0,
   verify_content_of_sign_content toyLib Eq toy_sig_correct toy_b64 7 7 rfl (ContentVal.bytes [1, 2]) false 3,
   verify_content_of_sign_content toyLib Eq toy_sig_correct toy_b64 7 7 rfl (ContentVal.str [104, 105]) true 5⟩

/-- C7: verify_cert coincides with the verifyIssuedBy of the spec (signature over
the to-be-signed bytes, issuer public key, PKCS#1 v1.5, the hash algorithm
declared in the certificate); PKCS#1 v1.5 is not the probabilistic padding
used for content; and no other certificate field (public key, validity
dates) influences the outcome, so no date/revocation/chain check happens. -/
theorem verify_cert_pkcs1v15_only (L : CryptoLib) (c c2 : Cert L.PubKey)
    (issuerPub : L.PubKey) :
    (verify_cert L c issuerPub = verifyIssuedBy L c issuerPub) ∧
    (PaddingScheme.pkcs1v15 ≠ content_padding) ∧
    (c.signature = c2.signature → c.tbs_certificate_bytes = c2.tbs_certificate_bytes →
      c.signature_hash_algorithm = c2.signature_hash_algorithm →
      verify_cert L c issuerPub = verify_cert L c2 issuerPub) := by
  refine ⟨rfl, by decide, ?_⟩
  intro h1 h2 h3
  unfold verify_cert
  rw [h1, h2, h3]

/-- C7 witness: two toy certificates sharing signature, to-be-signed bytes and
declared hash but differing in embedded public key and validity dates verify
identically. -/
theorem verify_cert_pkcs1v15_only_witness :
    (verify_cert toyLib (Cert.mk [3] [4] HashAlgo.sha256 9 0 100) 5
      = verifyIssuedBy toyLib (Cert.mk [3] [4] HashAlgo.sha256 9 0 100) 5) ∧
    (PaddingScheme.pkcs1v15 ≠ content_padding) ∧
    (verify_cert toyLib (Cert.mk [3] [4] HashAlgo.sha256 9 0 100) 5
      = verify_cert toyLib (Cert.mk [3] [4] HashAlgo.sha256 8 50 60) 5) :=
  ⟨(verify_cert_pkcs1v15_only toyLib (Cert.mk [3] [4] HashAlgo.sha256 9 0 100)
      (Cert.mk [3] [4] HashAlgo.sha256 8 50 60) 5).1,
   (verify_cert_pkcs1v15_only toyLib (Cert.mk [3] [4] HashAlgo.sha256 9 0 100)
      (Cert.mk [3] [4] HashAlgo.sha256 8 50 60) 5).2.1,
   (verify_cert_pkcs1v15_only toyLib (Cert.mk [3] [4] HashAlgo.sha256 9 0 100)
      (Cert.mk [3] [4] HashAlgo.sha256 8 50 60) 5).2.2 rfl rfl rfl⟩

/-- C4: sign_folders maintains one global visit counter: the signed
directories are exactly the first max(1, budget) elements of the walk
sequence, whichever branch they lie on; in particular with budget 1 only the
first-visited directory (the root) is signed and no other directory receives
a manifest or certificate file. -/
theorem sign_folders_global_budget (L : CryptoLib) (sf cf : PyStr)
    (pri : L.PriKey) (crt : Bytes) :
    (∀ (w : List WalkEntry) (mx : Int),
      (sign_folders L sf cf w pri crt mx).map SignedDir.path
        = (w.map WalkEntry.path).take (max 1 mx.toNat)) ∧
    (∀ (e : WalkEntry) (rest : List WalkEntry),
      (sign_folders L sf cf (e :: rest) pri crt 1).map SignedDir.path = [e.path]) := by
  constructor
  · intro w mx
    unfold sign_folders
    rw [signLoop_paths]
    norm_num
  · intro e rest
    unfold sign_folders
    rw [signLoop_paths]
    norm_num

/-- C10: the manifest and certificate are written before the budget check, so
for every walk of an existing root directory and every budget value,
including zero and negative ones, the root directory is signed: the first
output element carries the path of the root, a manifest, and the certificate
copy. -/
theorem sign_folders_always_signs_root (L : CryptoLib) (sf cf : PyStr)
    (pri : L.PriKey) (crt : Bytes) (mx : Int) (e : WalkEntry) (rest : List WalkEntry) :
    ∃ m : Manifest,
      (sign_folders L sf cf (e :: rest) pri crt mx).head?
        = some (SignedDir.mk e.path m crt) :=
  ⟨(signEntryManifest L pri sf cf e 0).1, rfl⟩

/-- C2: when, in some visited directory, the manifest and the embedded
certificate both load successfully and then either the certificate fails
validation against the root public key or some recorded, non-empty signature
fails verification against the bytes of the corresponding file or the
subfolder name, the overall result of verify_folder_signature is False. -/
theorem verify_folder_signature_fails_on_bad_dir (L : CryptoLib)
    (pm : Bytes → Option Manifest) (pc : Bytes → Option (Cert L.PubKey))
    (sf cf : PyStr) (w : List WalkEntry) (rootCaBytes : Bytes)
    (rootCert : Cert L.PubKey) (hroot : pc rootCaBytes = some rootCert)
    (e : WalkEntry) (he : e ∈ w)
    (sigBytes : Bytes) (hsb : dictGet e.files sf = some sigBytes)
    (m : Manifest) (hm : pm sigBytes = some m)
    (certBytes : Bytes) (hcb : dictGet e.files cf = some certBytes)
    (cert : Cert L.PubKey) (hcert : pc certBytes = some cert)
    (hfail :
      verify_cert L cert rootCert.public_key = false ∨
      (∃ f, f ∈ e.files ∧ (f.1 ≠ sf ∧ f.1 ≠ cf) ∧ ∃ s, dictGet m f.1 = some s ∧ s ≠ [] ∧
        verify_content L (ContentVal.bytes f.2) (SigVal.str s) cert.public_key = false) ∨
      (∃ d, d ∈ e.dirs ∧ ∃ s, dictGet m d = some s ∧ s ≠ [] ∧
        verify_content L (ContentVal.str d) (SigVal.str s) cert.public_key = false)) :
    verify_folder_signature L pm pc sf cf w rootCaBytes = false := by
  have hcd : checkDir L pm pc sf cf rootCert.public_key e = false := by
    simp only [checkDir, hsb, hm, hcb, hcert]
    rcases hfail with h | h | h
    · rw [h]
      rfl
    · obtain ⟨f, hf, ⟨h1, h2⟩, s, hs, hne, hv⟩ := h
      have hcf2 : checkFile L m cert.public_key sf cf f.1 f.2 = false := by
        unfold checkFile
        rw [if_neg (by push_neg; exact ⟨h1, h2⟩), hs]
        simp only [if_neg hne]
        exact hv
      have hall : e.files.all (fun f => checkFile L m cert.public_key sf cf f.1 f.2) = false := by
        cases hx : e.files.all (fun f => checkFile L m cert.public_key sf cf f.1 f.2) with
        | false => rfl
        | true =>
          have := List.all_eq_true.mp hx f hf
          rw [hcf2] at this
          cases this
      unfold checkEntries
      rw [hall]
      simp
    · obtain ⟨d, hd, s, hs, hne, hv⟩ := h
      have hcd2 : checkSubfolder L m cert.public_key d = false := by
        unfold checkSubfolder
        rw [hs]
        simp only [if_neg hne]
        exact hv
      have hall : e.dirs.all (fun d => checkSubfolder L m cert.public_key d) = false := by
        cases hx : e.dirs.all (fun d => checkSubfolder L m cert.public_key d) with
        | false => rfl
        | true =>
          have := List.all_eq_true.mp hx d hd
          rw [hcd2] at this
          cases this
      unfold checkEntries
      rw [hall]
      simp
  simp only [verify_folder_signature, hroot]
  cases hx : w.all (checkDir L pm pc sf cf rootCert.public_key) with
  | false => rfl
  | true =>
    have := List.all_eq_true.mp hx e he
    rw [hcd] at this
    cases this

/-- C2 witness: a single directory whose manifest ([0], parsing to the empty
dict) and certificate ([7], parsing to toyCertBad) both load, and whose
embedded certificate fails validation against the root key; the verification
of the whole tree returns false. -/
theorem verify_folder_signature_fails_on_bad_dir_witness :
    verify_folder_signature toyLib toyPm toyPc [1] [2] [toyEntryBad] [7] = false :=
  verify_folder_signature_fails_on_bad_dir toyLib toyPm toyPc [1] [2] [toyEntryBad] [7]
    toyCertBad rfl toyEntryBad (List.mem_singleton.mpr rfl) [0] rfl [] rfl [7] rfl
    toyCertBad rfl (Or.inl rfl)

/-- C3: a visited directory whose manifest file or embedded certificate file
is absent or unparsable is skipped whole, whatever its entries hold, and the
overall result is True provided every other directory passes; moreover an
entry present on disk but absent from the manifest is silently accepted by
both the file check and the subfolder check. -/
theorem verify_folder_signature_skips_unloadable_dir (L : CryptoLib)
    (pm : Bytes → Option Manifest) (pc : Bytes → Option (Cert L.PubKey))
    (sf cf : PyStr) (w : List WalkEntry) (rootCaBytes : Bytes)
    (rootCert : Cert L.PubKey) (hroot : pc rootCaBytes = some rootCert)
    (e : WalkEntry) (he : e ∈ w)
    (hskip :
      dictGet e.files sf = none ∨
      (∃ sb, dictGet e.files sf = some sb ∧ pm sb = none) ∨
      dictGet e.files cf = none ∨
      (∃ cb, dictGet e.files cf = some cb ∧ pc cb = none))
    (hothers : ∀ d, d ∈ w → d ≠ e → checkDir L pm pc sf cf rootCert.public_key d = true)
    (m2 : Manifest) (pub2 : L.PubKey) (name2 : PyStr) (content2 : Bytes)
    (hnone : dictGet m2 name2 = none) :
    verify_folder_signature L pm pc sf cf w rootCaBytes = true ∧
    checkFile L m2 pub2 sf cf name2 content2 = true ∧
    checkSubfolder L m2 pub2 name2 = true := by
  have hcd : checkDir L pm pc sf cf rootCert.public_key e = true := by
    rcases hskip with h | ⟨sb, h1, h2⟩ | h | ⟨cb, h1, h2⟩
    · simp [checkDir, h]
    · simp [checkDir, h1, h2]
    · unfold checkDir
      cases hx : dictGet e.files sf with
      | none => rfl
      | some sb =>
        cases hy : pm sb with
        | none => simp [hy]
        | some m => simp [hy, h]
    · unfold checkDir
      cases hx : dictGet e.files sf with
      | none => rfl
      | some sb =>
        cases hy : pm sb with
        | none => simp [hy]
        | some m => simp [hy, h1, h2]
  refine ⟨?_, ?_, ?_⟩
  · simp only [verify_folder_signature, hroot]
    rw [List.all_eq_true]
    intro d hd
    by_cases hde : d = e
    · subst hde
      exact hcd
    · exact hothers d hd hde
  · unfold checkFile
    by_cases hres : name2 = sf ∨ name2 = cf
    · rw [if_pos hres]
    · rw [if_neg hres, hnone]
  · unfold checkSubfolder
    rw [hnone]

/-- C3 witness: a two-directory tree whose root carries no manifest file at
all and whose child carries an unparsable one; verification still reports
True, and a file name absent from a concrete manifest is accepted. -/
theorem verify_folder_signature_skips_unloadable_dir_witness :
    verify_folder_signature toyLib toyPm toyPc [1] [2]
      [toyEntryBare, WalkEntry.mk [[4]] [([1], [9])] []] [7] = true ∧
    checkFile toyLib [([5], [6])] 3 [1] [2] [9] [8] = true ∧
    checkSubfolder toyLib [([5], [6])] 3 [9] = true :=
  verify_folder_signature_skips_unloadable_dir toyLib toyPm toyPc [1] [2]
    [toyEntryBare, WalkEntry.mk [[4]] [([1], [9])] []] [7] toyCertBad rfl
    toyEntryBare (List.mem_cons_self _ _) (Or.inl rfl)
    (by decide) [([5], [6])] 3 [9] [8] rfl

/-- C9: verification only examines entries currently on disk: adding a
manifest binding for a name that is neither a file nor a subfolder of the
directory leaves the outcome of the entry checks unchanged; and shrinking
the on-disk file list (deleting signed files) preserves a passing outcome,
so a deleted signed file never causes failure. -/
theorem manifest_only_keys_never_examined (L : CryptoLib) (m : Manifest)
    (pub : L.PubKey) (sf cf : PyStr) (files files2 : List (PyStr × Bytes))
    (dirs : List PyStr) (k v : PyStr)
    (hkf : k ∉ files.map Prod.fst) (hkd : k ∉ dirs)
    (hsub : ∀ f, f ∈ files2 → f ∈ files)
    (hpass : checkEntries L m pub sf cf files dirs = true) :
    checkEntries L (dictInsert m k v) pub sf cf files dirs
      = checkEntries L m pub sf cf files dirs ∧
    checkEntries L m pub sf cf files2 dirs = true := by
  constructor
  · unfold checkEntries
    have h1 : files.all (fun f => checkFile L (dictInsert m k v) pub sf cf f.1 f.2)
        = files.all (fun f => checkFile L m pub sf cf f.1 f.2) := by
      apply list_all_congr
      intro f hf
      have hne : f.1 ≠ k := by
        intro he
        exact hkf (he ▸ List.mem_map_of_mem Prod.fst hf)
      unfold checkFile
      rw [dictGet_dictInsert_ne m k v f.1 hne]
    have h2 : dirs.all (fun d => checkSubfolder L (dictInsert m k v) pub d)
        = dirs.all (fun d => checkSubfolder L m pub d) := by
      apply list_all_congr
      intro d hd
      have hne : d ≠ k := fun he => hkd (he ▸ hd)
      unfold checkSubfolder
      rw [dictGet_dictInsert_ne m k v d hne]
    rw [h1, h2]
  · unfold checkEntries at hpass ⊢
    have hp := Bool.and_eq_true_iff.mp hpass
    refine Bool.and_eq_true_iff.mpr ⟨?_, hp.2⟩
    rw [List.all_eq_true]
    intro f hf
    exact List.all_eq_true.mp hp.1 f (hsub f hf)

/-- C9 witness: a manifest binding for the absent name [7] changes nothing,
and dropping the present file keeps the checks passing. -/
theorem manifest_only_keys_never_examined_witness :
    (checkEntries toyLib (dictInsert [([5], [])] [7] [8]) 3 [1] [2] [([5], [9])] [[6]]
      = checkEntries toyLib [([5], [])] 3 [1] [2] [([5], [9])] [[6]]) ∧
    checkEntries toyLib [([5], [])] 3 [1] [2] [] [[6]] = true :=
  manifest_only_keys_never_examined toyLib [([5], [])] 3 [1] [2] [([5], [9])] [] [[6]]
    [7] [8] (by decide) (by decide) (by intro f hf; cases hf) (by decide)

/-- C6: every manifest sign_folders emits is the signEntryManifest of some
visited walk entry; and in such a manifest, an immediate subfolder name d is
bound to a base64 signature computed by sign_content over the name string d
itself (UTF-8 encoded via ContentVal.str, not over the
contents), while a non-reserved immediate file f carrying bytes b (f
determining b, and f not also a subfolder name) is bound to a signature
computed by sign_content over those raw bytes. -/
theorem sign_folders_signs_names_and_bytes (L : CryptoLib) (sf cf : PyStr)
    (w : List WalkEntry) (pri : L.PriKey) (crt : Bytes) (mx : Int) (sd : SignedDir)
    (p : List PyStr) (files : List (PyStr × Bytes)) (dirs : List PyStr) (k0 : Nat)
    (d f : PyStr) (b : Bytes)
    (hsd : sd ∈ sign_folders L sf cf w pri crt mx)
    (hd : d ∈ dirs)
    (hf : (f, b) ∈ files) (hfsf : f ≠ sf) (hfcf : f ≠ cf)
    (hdet : ∀ b2, (f, b2) ∈ files → b2 = b) (hfd : f ∉ dirs) :
    (∃ e, e ∈ w ∧ sd.path = e.path ∧
      ∃ k1, sd.manifest = (signEntryManifest L pri sf cf e k1).1) ∧
    (∃ r s, dictGet (signEntryManifest L pri sf cf (WalkEntry.mk p files dirs) k0).1 d = some s ∧
      SigVal.str s = sign_content L (ContentVal.str d) pri true r) ∧
    (∃ r s, dictGet (signEntryManifest L pri sf cf (WalkEntry.mk p files dirs) k0).1 f = some s ∧
      SigVal.str s = sign_content L (ContentVal.bytes b) pri true r) := by
  rcases hsplit : signFilesFold L pri sf cf files ([], k0) with ⟨m1, k1⟩
  have hentry : signEntryManifest L pri sf cf (WalkEntry.mk p files dirs) k0
      = signDirsFold L pri dirs (m1, k1) := by
    unfold signEntryManifest
    rw [show (WalkEntry.mk p files dirs).dirs = dirs from rfl,
      show (WalkEntry.mk p files dirs).files = files from rfl, hsplit]
  refine ⟨?_, ?_, ?_⟩
  · obtain ⟨e, he, k2, hk⟩ := signLoop_mem L pri sf cf crt mx w 0 0 sd hsd
    exact ⟨e, he, by rw [hk], k2, by rw [hk]⟩
  · rw [hentry]
    obtain ⟨r, hr⟩ := signDirsFold_get_of_mem L pri dirs m1 k1 d hd
    exact ⟨r, sign_content_s L (ContentVal.str d) pri r, hr, rfl⟩
  · rw [hentry]
    obtain ⟨r, hr⟩ := signFilesFold_get_of_mem L pri sf cf files [] k0 f b hf hfsf hfcf hdet
    rw [hsplit] at hr
    refine ⟨r, sign_content_s L (ContentVal.bytes b) pri r, ?_, rfl⟩
    rw [signDirsFold_get_of_not_mem L pri dirs m1 k1 f hfd]
    exact hr

/-- C6 witness: a one-directory walk with one non-reserved file [20] holding
bytes [9, 9] and one subfolder [30]; the emitted manifest signs the
name of the subfolder and the bytes of the file. -/
theorem sign_folders_signs_names_and_bytes_witness :
    (∃ e, e ∈ [WalkEntry.mk [] [([20], [9, 9])] [[30]]] ∧
      (SignedDir.mk []
        (signEntryManifest toyLib 5 [1] [2] (WalkEntry.mk [] [([20], [9, 9])] [[30]]) 0).1
        [7]).path = e.path ∧
      ∃ k1, (SignedDir.mk []
        (signEntryManifest toyLib 5 [1] [2] (WalkEntry.mk [] [([20], [9, 9])] [[30]]) 0).1
        [7]).manifest = (signEntryManifest toyLib 5 [1] [2] e k1).1) ∧
    (∃ r s, dictGet (signEntryManifest toyLib 5 [1] [2] (WalkEntry.mk [] [([20], [9, 9])] [[30]]) 0).1 [30] = some s ∧
      SigVal.str s = sign_content toyLib (ContentVal.str [30]) 5 true r) ∧
    (∃ r s, dictGet (signEntryManifest toyLib 5 [1] [2] (WalkEntry.mk [] [([20], [9, 9])] [[30]]) 0).1 [20] = some s ∧
      SigVal.str s = sign_content toyLib (ContentVal.bytes [9, 9]) 5 true r) :=
  sign_folders_signs_names_and_bytes toyLib [1] [2]
    [WalkEntry.mk [] [([20], [9, 9])] [[30]]] 5 [7] 9999
    (SignedDir.mk []
      (signEntryManifest toyLib 5 [1] [2] (WalkEntry.mk [] [([20], [9, 9])] [[30]]) 0).1
      [7])
    [] [([20], [9, 9])] [[30]] 0 [30] [20] [9, 9]
    (by decide) (by decide) (by decide) (by decide) (by decide)
    (by
      intro b2 hb2
      injection List.mem_singleton.mp hb2 with h1 h2)
    (by decide)

theorem signAllFold_keys (L : CryptoLib) (pri : L.PriKey) (entries : List DirEntry)
    (m : Manifest) (k : Nat)
    (hnd : (dirEntryFileNames entries).Nodup)
    (hdisj : ∀ n, n ∈ dirEntryFileNames entries → n ∉ m.map Prod.fst) :
    (signAllFold L pri entries (m, k)).1.map Prod.fst
      = m.map Prod.fst ++ dirEntryFileNames entries := by
  induction entries generalizing m k with
  | nil => simp [signAllFold, dirEntryFileNames]
  | cons ent rest ih =>
    cases ent with
    | subdirEntry name =>
      rw [show signAllFold L pri (DirEntry.subdirEntry name :: rest) (m, k)
          = signAllFold L pri rest (m, k) from rfl]
      rw [show dirEntryFileNames (DirEntry.subdirEntry name :: rest)
          = dirEntryFileNames rest from rfl] at hnd hdisj ⊢
      exact ih m k hnd hdisj
    | fileEntry name content =>
      rw [show signAllFold L pri (DirEntry.fileEntry name content :: rest) (m, k)
          = signAllFold L pri rest
              (dictInsert m name (sign_content_s L (ContentVal.bytes content) pri k), k + 1)
          from rfl]
      rw [show dirEntryFileNames (DirEntry.fileEntry name content :: rest)
          = name :: dirEntryFileNames rest from rfl] at hnd hdisj ⊢
      have hnm : name ∉ m.map Prod.fst :=
        hdisj name (List.mem_cons_self _ _)
      have hnrest : name ∉ dirEntryFileNames rest := (List.nodup_cons.mp hnd).1
      have hkeys := keys_dictInsert_of_not_mem m name
        (sign_content_s L (ContentVal.bytes content) pri k) hnm
      have hdisj2 : ∀ n, n ∈ dirEntryFileNames rest →
          n ∉ (dictInsert m name (sign_content_s L (ContentVal.bytes content) pri k)).map Prod.fst := by
        intro n hn
        rw [hkeys]
        intro hmem
        rcases List.mem_append.mp hmem with h1 | h1
        · exact hdisj n (List.mem_cons_of_mem _ hn) h1
        · rw [List.mem_singleton.mp h1] at hn
          exact hnrest hn
      rw [ih _ _ (List.nodup_cons.mp hnd).2 hdisj2, hkeys]
      simp

/-- C8: the keys of the map sign_all returns are exactly the names of the
immediate regular files of the listing, in listing order; subfolders and other
non-file entries contribute nothing.  (The embedding of sign_all is a pure
function returning the map: the source performs no filesystem write.) -/
theorem sign_all_keys_are_exactly_files (L : CryptoLib) (entries : List DirEntry)
    (pri : L.PriKey) (k : Nat)
    (hnd : (dirEntryFileNames entries).Nodup) :
    (sign_all L entries pri k).map Prod.fst = dirEntryFileNames entries := by
  unfold sign_all
  rw [signAllFold_keys L pri entries [] k hnd (by intro n hn; simp)]
  simp

/-- C8 witness: a listing with two files around a subfolder yields exactly the
two file names as keys. -/
theorem sign_all_keys_are_exactly_files_witness :
    (sign_all toyLib
      [DirEntry.fileEntry [3] [1], DirEntry.subdirEntry [4], DirEntry.fileEntry [5] []]
      6 0).map Prod.fst
    = dirEntryFileNames
      [DirEntry.fileEntry [3] [1], DirEntry.subdirEntry [4], DirEntry.fileEntry [5] []] :=
  sign_all_keys_are_exactly_files toyLib
    [DirEntry.fileEntry [3] [1], DirEntry.subdirEntry [4], DirEntry.fileEntry [5] []]
    6 0 (by decide)

theorem checkEntries_filter_reserved (L : CryptoLib) (m : Manifest) (pub : L.PubKey)
    (sf cf : PyStr) (files : List (PyStr × Bytes)) (dirs : List PyStr) :
    checkEntries L m pub sf cf files dirs
      = checkEntries L m pub sf cf
          (files.filter (fun f2 => if f2.1 = sf ∨ f2.1 = cf then false else true)) dirs := by
  unfold checkEntries
  have h : ∀ fl : List (PyStr × Bytes),
      fl.all (fun f => checkFile L m pub sf cf f.1 f.2)
        = (fl.filter (fun f2 => if f2.1 = sf ∨ f2.1 = cf then false else true)).all
            (fun f => checkFile L m pub sf cf f.1 f.2) := by
    intro fl
    induction fl with
    | nil => rfl
    | cons f rest ih =>
      rw [List.all_cons]
      by_cases hr : f.1 = sf ∨ f.1 = cf
      · have hcf2 : checkFile L m pub sf cf f.1 f.2 = true := by
          unfold checkFile
          rw [if_pos hr]
        have hfil : (f :: rest).filter (fun f2 => if f2.1 = sf ∨ f2.1 = cf then false else true)
            = rest.filter (fun f2 => if f2.1 = sf ∨ f2.1 = cf then false else true) := by
          rw [List.filter_cons]
          simp [hr]
        rw [hfil, hcf2, ih]
        simp
      · have hfil : (f :: rest).filter (fun f2 => if f2.1 = sf ∨ f2.1 = cf then false else true)
            = f :: rest.filter (fun f2 => if f2.1 = sf ∨ f2.1 = cf then false else true) := by
          rw [List.filter_cons]
          simp [hr]
        rw [hfil, List.all_cons, ih]
  rw [h files]

/-- C5 counterexample: reserved names do appear as keys of a signature
manifest produced by signing.  Taking the reserved manifest name
NVFLARE_SIG_FILE to be the one-character name [1]: sign_all applies no
reserved-name filter at all, so a directory holding a regular file named [1]
yields a signature map keyed by the reserved name [1]. -/
theorem reserved_name_appears_as_key_counterexample :
    [1] ∈ (sign_all toyLib [DirEntry.fileEntry [1] [9]] 5 0).map Prod.fst := by
  decide

/-- C5 amended: the reserved names are excluded when files are enumerated, in
the files loop of sign_folders and the files loop of verification; so on any
walk in which no directory has a subfolder bearing a reserved name — the
only walks sign_folders completes on, since writing the manifest or copying
the certificate into a directory whose subfolder already bears that name
raises and aborts the run — no manifest key produced by sign_folders equals
a reserved name; and filtering reserved-named files out of a directory
listing never changes the verification entry checks.  (sign_all applies no
reserved-name filter at all — see the counterexample.) -/
theorem reserved_names_skipped_in_file_enumeration (L : CryptoLib) (sf cf : PyStr)
    (w : List WalkEntry) (pri : L.PriKey) (crt : Bytes) (mx : Int) (sd : SignedDir)
    (n : PyStr) (m : Manifest) (pub : L.PubKey)
    (files : List (PyStr × Bytes)) (dirs : List PyStr)
    (hsd : sd ∈ sign_folders L sf cf w pri crt mx)
    (hn : n ∈ sd.manifest.map Prod.fst)
    (hnodir : ∀ e, e ∈ w → sf ∉ e.dirs ∧ cf ∉ e.dirs) :
    (n ≠ sf ∧ n ≠ cf) ∧
    checkEntries L m pub sf cf files dirs
      = checkEntries L m pub sf cf
          (files.filter (fun f2 => if f2.1 = sf ∨ f2.1 = cf then false else true)) dirs := by
  refine ⟨?_, checkEntries_filter_reserved L m pub sf cf files dirs⟩
  obtain ⟨e, he, k0, hk⟩ := signLoop_mem L pri sf cf crt mx w 0 0 sd hsd
  rw [hk] at hn
  rcases hsplit : signFilesFold L pri sf cf e.files ([], k0) with ⟨m1, k1⟩
  rw [show (SignedDir.mk e.path (signEntryManifest L pri sf cf e k0).1 crt).manifest
      = (signEntryManifest L pri sf cf e k0).1 from rfl] at hn
  rw [show signEntryManifest L pri sf cf e k0 = signDirsFold L pri e.dirs (m1, k1) from by
    unfold signEntryManifest
    rw [hsplit]] at hn
  rcases signDirsFold_keys L pri e.dirs m1 k1 n hn with h1 | h1
  · rw [show m1 = (signFilesFold L pri sf cf e.files ([], k0)).1 from by rw [hsplit]] at h1
    rcases signFilesFold_keys L pri sf cf e.files [] k0 n h1 with h2 | h2
    · cases h2
    · exact ⟨h2.2.1, h2.2.2⟩
  · constructor
    · intro he2
      exact (hnodir e he).1 (he2 ▸ h1)
    · intro he2
      exact (hnodir e he).2 (he2 ▸ h1)

/-- C5 amended witness: a walk of one directory holding a non-reserved file
[3] and a non-reserved subfolder [6]; the key [3] of the emitted manifest is
not a reserved name, and filtering reserved-named files out of a concrete
listing leaves the entry checks unchanged. -/
theorem reserved_names_skipped_in_file_enumeration_witness :
    (([3] : PyStr) ≠ [1] ∧ ([3] : PyStr) ≠ [2]) ∧
    checkEntries toyLib [([5], [])] 4 [1] [2] [([1], [8]), ([5], [9])] [[6]]
      = checkEntries toyLib [([5], [])] 4 [1] [2]
          ([([1], [8]), ([5], [9])].filter
            (fun f2 => if f2.1 = [1] ∨ f2.1 = [2] then false else true)) [[6]] :=
  reserved_names_skipped_in_file_enumeration toyLib [1] [2]
    [WalkEntry.mk [] [([3], [4])] [[6]]] 5 [7] 9999
    (SignedDir.mk []
      (signEntryManifest toyLib 5 [1] [2] (WalkEntry.mk [] [([3], [4])] [[6]]) 0).1
      [7])
    [3] [([5], [])] 4 [([1], [8]), ([5], [9])] [[6]]
    (by decide) (by decide) (by decide)
